import Mathlib

/-!
# Verification of the Airbnb market-scraping pipeline core

Shallow embedding of the harvesting pipeline of the repository
(`main.go`, `scraper/airbnb/detail_scraper.go`, `scraper/airbnb/scraper.go`,
`config/config.go`, `utils` normalization helpers), together with proofs of
the specified properties.

Modelling conventions:
* Go `int` becomes `Int`; Go `float64` values that originate from decimal
  text are modelled exactly as `ℚ` (every concrete value the claims mention
  is handled identically by both representations).
* Go `error` values become `Option String` (`none` = nil error).
* External effects (the headless browser run, JSON parse of the evaluated
  page script) are supplied as explicit outcome oracles, so the control flow
  of the Go functions is translated verbatim while the environment stays a
  parameter.
* `utils.NormalizeURL` (its source file is not part of the provided sources)
  is kept an abstract parameter `f : String → String`; every theorem holds
  for an arbitrary normalization function.
-/

namespace AirbnbScrape

/-! ## Data model -/

/-- `DetailResult` from `scraper/airbnb/detail_scraper.go`:
result of scraping one listing detail page. -/
structure DetailResult where
  URL : String
  Bedrooms : Int
  Bathrooms : Int
  Guests : Int
  Error : Option String
deriving DecidableEq, Repr

/-- Modelled from the spec: `models.RawListing` (package `models` is not among
the provided sources; fields follow §3 of the spec: url, title, priceText,
ratingText, locationName, bedrooms, bathrooms, guests, the numeric fields
starting zero-valued). -/
structure RawListing where
  URL : String
  Title : String
  PriceText : String
  RatingText : String
  LocationName : String
  Bedrooms : Int
  Bathrooms : Int
  Guests : Int
deriving DecidableEq, Repr

/-- Modelled from the spec: a discovered `Location` `{name, url}` (§3). -/
structure Location where
  Name : String
  URL : String
deriving DecidableEq, Repr

/-! ## Field Extractor (`utils` normalization helpers)

Translation of `NormalizePrice` / `NormalizeRating`: the Go code applies a
regular expression (`FindString`, leftmost match with greedy quantifiers),
strips commas (price only), and calls `strconv.ParseFloat`, returning `0`
on any failure. The regex search and decimal parse are translated
explicitly below. -/

/-- Character class `[\d,]` of the price regex. -/
def isPriceChar (c : Char) : Bool := c.isDigit || c == ','

/-- Match of the price regex `[\d,]+\.?\d*` anchored at the start of `cs`
(greedy, as Go's RE2 leftmost-first semantics gives: maximal `[\d,]` run,
optional dot, maximal digit run). -/
def priceMatchAt (cs : List Char) : Option (List Char) :=
  match cs with
  | [] => none
  | c :: _ =>
    if isPriceChar c then
      let run1 := cs.takeWhile isPriceChar
      match cs.dropWhile isPriceChar with
      | '.' :: rest => some (run1 ++ '.' :: rest.takeWhile Char.isDigit)
      | _ => some run1
    else none

/-- Match of the rating regex `\d+\.?\d*` anchored at the start of `cs`. -/
def ratingMatchAt (cs : List Char) : Option (List Char) :=
  match cs with
  | [] => none
  | c :: _ =>
    if c.isDigit then
      let run1 := cs.takeWhile Char.isDigit
      match cs.dropWhile Char.isDigit with
      | '.' :: rest => some (run1 ++ '.' :: rest.takeWhile Char.isDigit)
      | _ => some run1
    else none

/-- `regexp.FindString`: the match at the leftmost position where one
starts, `none` when no position matches (Go then returns `""`). -/
def findFirst (matchAt : List Char → Option (List Char)) : List Char → Option (List Char)
  | [] => none
  | c :: cs =>
    match matchAt (c :: cs) with
    | some m => some m
    | none => findFirst matchAt cs

/-- Value of a digit list read in base 10. -/
def digitsToNat (cs : List Char) : Nat :=
  cs.foldl (fun n c => 10 * n + (c.toNat - 48)) 0

/-- Splits a character list at the first `'.'` (the tokens fed to the
decimal parser contain at most one dot by construction of the regexes). -/
def intFracParts : List Char → List Char × Option (List Char)
  | [] => ([], none)
  | '.' :: rest => ([], some rest)
  | c :: rest =>
    let p := intFracParts rest
    (c :: p.1, p.2)

/-- `strconv.ParseFloat` restricted to the token shapes the two regexes can
produce after comma removal (`\d*\.?\d*`): succeeds exactly when at least
one digit is present, with the exact decimal value. -/
def parseDecimal (s : String) : Option ℚ :=
  let cs := s.toList
  if cs.any Char.isDigit ∧ (∀ c ∈ cs, c.isDigit ∨ c = '.') ∧ cs.count '.' ≤ 1 then
    match intFracParts cs with
    | (w, none) => some ((digitsToNat w : ℚ))
    | (w, some fr) => some ((digitsToNat w : ℚ) + (digitsToNat fr : ℚ) / ((10 : ℚ) ^ fr.length))
  else none

/-- `utils.NormalizePrice`: extract `[\d,]+\.?\d*`, remove commas, parse;
`0` when the regex finds nothing or the parse fails. -/
def NormalizePrice (raw : String) : ℚ :=
  match findFirst priceMatchAt raw.toList with
  | none => 0
  | some m =>
    match parseDecimal (String.mk (m.filter (fun c => c != ','))) with
    | none => 0
    | some price => price

/-- `utils.NormalizeRating`: extract `\d+\.?\d*`, parse, cap at `5.0`;
`0` when the regex finds nothing or the parse fails. -/
def NormalizeRating (raw : String) : ℚ :=
  match findFirst ratingMatchAt raw.toList with
  | none => 0
  | some m =>
    match parseDecimal (String.mk m) with
    | none => 0
    | some rating => if rating > 5 then 5 else rating

/-! ## Merge step and detail-URL list (from `runScraping` in `main.go`)

`utils.NormalizeURL` is not among the provided sources; it stays an
abstract parameter `f`. -/

/-- The Stage-3 URL list of `runScraping` (`main.go`): one normalized URL
per accumulated listing with a non-empty URL, in order, as built by the
`for _, listing := range allRawListings` loop. -/
def buildDetailURLs (f : String → String) (listings : List RawListing) : List String :=
  listings.foldl (fun urls listing =>
    if listing.URL ≠ "" then urls ++ [f listing.URL] else urls) []

/-- Body of the merge loop of `runScraping` (`main.go`) at index `i`:
read `allRawListings[i]`, look its normalized URL up in `detailResults`, and
overwrite the three numeric fields when a result exists with a nil error. -/
def mergeBody (f : String → String) (details : String → Option DetailResult)
    (acc : List RawListing) (i : Nat) : List RawListing :=
  match acc[i]? with
  | none => acc
  | some l =>
    match details (f l.URL) with
    | some detail =>
      if detail.Error = none then
        acc.set i { l with Bedrooms := detail.Bedrooms, Bathrooms := detail.Bathrooms,
                           Guests := detail.Guests }
      else acc
    | none => acc

/-- The merge loop of `runScraping` (`main.go`):
`for i := range allRawListings { ... }`, translated as an in-place indexed
update pass over the listing sequence. -/
def mergeDetails (f : String → String) (details : String → Option DetailResult)
    (listings : List RawListing) : List RawListing :=
  (List.range listings.length).foldl (mergeBody f details) listings

/-- The effect of one merge-loop iteration on a single listing. -/
def mergeOne (f : String → String) (details : String → Option DetailResult)
    (l : RawListing) : RawListing :=
  match details (f l.URL) with
  | some detail =>
    if detail.Error = none then
      { l with Bedrooms := detail.Bedrooms, Bathrooms := detail.Bathrooms,
               Guests := detail.Guests }
    else l
  | none => l

/-- The merge step viewed as a transformation of the whole program state it
touches: the listing slice and the detail-result map. -/
def mergeStep (f : String → String)
    (st : List RawListing × (String → Option DetailResult)) :
    List RawListing × (String → Option DetailResult) :=
  (mergeDetails f st.2 st.1, st.2)

/-! ## Orchestrator stages (from `runScraping` in `main.go`) -/

/-- How a pipeline run ends, following the early returns of `runScraping`:
fatal homepage-scrape failure (`log.Fatal`), zero locations (warned, return),
zero accumulated properties (warned, return), or completion with the merged
listing sequence. -/
inductive RunOutcome where
  | fatalHomepage (e : String)
  | noLocations
  | noProperties
  | completed (merged : List RawListing)
deriving DecidableEq

/-- Body of the Stage-2 location loop of `runScraping`: a failed
`ScrapeListings` call (`continue`) or an empty result (`continue`) leaves the
accumulator unchanged; otherwise the listings are appended. -/
def collectBody (fetch : Location → Except String (List RawListing))
    (acc : List RawListing) (loc : Location) : List RawListing :=
  match fetch loc with
  | .error _ => acc
  | .ok rawListings => if rawListings.isEmpty then acc else acc ++ rawListings

/-- Stage 2 of `runScraping`: accumulate the per-location listings over all
discovered locations (partial-failure tolerant). The per-location scrape is
an oracle `fetch` standing for `scraper.ScrapeListings`. -/
def collectStage (fetch : Location → Except String (List RawListing))
    (locations : List Location) : List RawListing :=
  locations.foldl (collectBody fetch) []

/-- `runScraping` (`main.go`), stages 1–4: discovery, per-location
collection, detail enrichment, merge. `discover` stands for
`scraper.ScrapeHomepageLocations`, `fetch` for `scraper.ScrapeListings`,
`pool` for `scraper.ScrapeDetailsWithWorkers` (its result map), and `f` for
`utils.NormalizeURL`. -/
def runScraping (f : String → String) (discover : Except String (List Location))
    (fetch : Location → Except String (List RawListing))
    (pool : List String → (String → Option DetailResult)) : RunOutcome :=
  match discover with
  | .error e => .fatalHomepage e
  | .ok locations =>
    if locations.length = 0 then .noLocations
    else
      let allRawListings := collectStage fetch locations
      if allRawListings.length = 0 then .noProperties
      else
        let urls := buildDetailURLs f allRawListings
        let detailResults := pool urls
        .completed (mergeDetails f detailResults allRawListings)

/-! ## Detail page scrape and retry (from `scraper/airbnb/detail_scraper.go`) -/

/-- Go's `int(f)` conversion on a `float64`: truncation toward zero,
on the exact rational model of the extracted value. -/
def goTrunc (q : ℚ) : Int := if 0 ≤ q then ⌊q⌋ else ⌈q⌉

/-- Outcome of the environment underneath one `ScrapeDetailPage` call:
the `chromedp.Run` fails, the `json.Unmarshal` of the evaluated script
fails, or extraction succeeds with the three numbers the page script
produced (bathrooms parsed as a float, hence `ℚ` here). -/
inductive PageOutcome where
  | runFail (e : String)
  | parseFail (e : String)
  | ok (bedrooms : Int) (bathrooms : ℚ) (guests : Int)

/-- `ScrapeDetailPage`: returns `(result, error)` exactly as the Go method
does — on a failed browser run or JSON parse, the zero-initialized result
with its `Error` field set (and the same error returned); on success the
extracted fields, with `result.Bathrooms = int(details.Bathrooms)`. -/
def ScrapeDetailPage (url : String) (o : PageOutcome) : DetailResult × Option String :=
  match o with
  | .runFail e =>
    ({ URL := url, Bedrooms := 0, Bathrooms := 0, Guests := 0,
       Error := some ("failed to scrape detail page: " ++ e) },
     some ("failed to scrape detail page: " ++ e))
  | .parseFail e =>
    ({ URL := url, Bedrooms := 0, Bathrooms := 0, Guests := 0,
       Error := some ("failed to parse details JSON: " ++ e) },
     some ("failed to parse details JSON: " ++ e))
  | .ok bedrooms bathrooms guests =>
    ({ URL := url, Bedrooms := bedrooms, Bathrooms := goTrunc bathrooms,
       Guests := guests, Error := none }, none)

/-- `true` when the attempt outcome makes `ScrapeDetailPage` return a
non-nil error. -/
def pageFails : PageOutcome → Bool
  | .ok _ _ _ => false
  | _ => true

/-- The error text of `fmt.Errorf("failed after %d retries: %w", maxRetries, lastErr)`. -/
def failAfterMsg (maxRetries : Nat) (e : String) : String :=
  "failed after " ++ toString maxRetries ++ " retries: " ++ e

/-- The fresh result `&DetailResult{URL: url, Error: fmt.Errorf(...)}` that
`scrapeDetailWithRetry` returns when every attempt failed: all numeric
fields at their zero values, wrapping the last error. -/
def failResult (url : String) (maxRetries : Nat) (e : String) : DetailResult :=
  { URL := url, Bedrooms := 0, Bathrooms := 0, Guests := 0,
    Error := some (failAfterMsg maxRetries e) }

/-- Observable trace of one `scrapeDetailWithRetry` call: the returned
result, how many `ScrapeDetailPage` attempts were made, and the list of
inter-attempt delays slept (each `RetryDelayMs` milliseconds). -/
structure RetryTrace where
  result : DetailResult
  attempts : Nat
  delays : List Int
deriving DecidableEq

/-- The retry loop `for attempt := 1; attempt <= maxRetries; attempt++` of
`scrapeDetailWithRetry`, indexed by the current attempt number and the
number of attempts still allowed (`remaining = maxRetries - attempt + 1`).
On success return the page result; on failure with attempts remaining sleep
`retryDelayMs` and try again; on failure of the final attempt return a fresh
zero-valued result wrapping the last error. `outs i` is the environment's
outcome for attempt `i`. The `remaining = 0` base case corresponds to the
loop body never running (unreachable, since the effective `maxRetries` is
at least 1). -/
def retryGo (outs : Nat → PageOutcome) (url : String) (maxRetries : Nat)
    (retryDelayMs : Int) : Nat → Nat → Option String → RetryTrace
  | _, 0, lastErr =>
    { result := failResult url maxRetries (lastErr.getD ""), attempts := 0, delays := [] }
  | attempt, 1, _ =>
    match ScrapeDetailPage url (outs attempt) with
    | (res, none) => { result := res, attempts := 1, delays := [] }
    | (_, some e) =>
      { result := failResult url maxRetries e, attempts := 1, delays := [] }
  | attempt, remaining + 2, _ =>
    match ScrapeDetailPage url (outs attempt) with
    | (res, none) => { result := res, attempts := 1, delays := [] }
    | (_, some e) =>
      let t := retryGo outs url maxRetries retryDelayMs (attempt + 1) (remaining + 1) (some e)
      { result := t.result, attempts := t.attempts + 1, delays := retryDelayMs :: t.delays }

/-- The `maxRetries := s.cfg.MaxRetries; if maxRetries <= 0 { maxRetries = 3 }`
defaulting at the top of `scrapeDetailWithRetry`. -/
def effMaxRetries (cfgMaxRetries : Int) : Nat :=
  if cfgMaxRetries ≤ 0 then 3 else cfgMaxRetries.toNat

/-- `scrapeDetailWithRetry`: run the retry loop starting at attempt 1 with
the effective retry budget. -/
def scrapeDetailWithRetry (outs : Nat → PageOutcome) (url : String)
    (cfgMaxRetries retryDelayMs : Int) : RetryTrace :=
  retryGo outs url (effMaxRetries cfgMaxRetries) retryDelayMs 1 (effMaxRetries cfgMaxRetries) none

/-! ## Detail worker pool (from `ScrapeDetailsWithWorkers`)

The pool is modelled as a small-step transition system. The shared channel
`urlChan` is pre-loaded with the URL list and closed (`queue`); each of the
`numWorkers` goroutines is, at any instant, waiting on the channel (counted
by `idle`), processing one URL (its URL listed in `busy`), or exited after
the drained channel closed (counted by `done`); the mutex-serialized
`results[url] = result` stores append to the write trace `writes`;
`returned` records that `wg.Wait()` has unblocked and the function returned
the map. Worker identity is irrelevant to every property, so the worker set
is represented by these counters. `scrape` stands for
`s.scrapeDetailWithRetry(ctx, url)`. -/

/-- Instantaneous state of one `ScrapeDetailsWithWorkers` call. -/
structure PoolState where
  queue : List String
  idle : Nat
  busy : List String
  done : Nat
  writes : List (String × DetailResult)
  returned : Bool

/-- Initial state: channel pre-loaded with `urls`, all `numWorkers` workers
waiting, nothing written, call not yet returned. -/
def initPool (numWorkers : Nat) (urls : List String) : PoolState :=
  { queue := urls, idle := numWorkers, busy := [], done := 0, writes := [], returned := false }

/-- One scheduler step of the pool:
* `take` — an idle worker receives the next URL from the channel;
* `finish` — a busy worker completes `scrapeDetailWithRetry` for its URL and
  stores the result into the mutex-guarded map (appends to the write trace);
* `wexit` — an idle worker observes the closed, drained channel and exits
  (`wg.Done`);
* `ret` — with all workers exited, `wg.Wait()` unblocks and the call
  returns. -/
inductive PoolStep (scrape : String → DetailResult) (numWorkers : Nat) :
    PoolState → PoolState → Prop where
  | take (u : String) (q : List String) {s : PoolState} :
      s.queue = u :: q → 1 ≤ s.idle →
      PoolStep scrape numWorkers s
        { s with queue := q, idle := s.idle - 1, busy := u :: s.busy }
  | finish (u : String) {s : PoolState} :
      u ∈ s.busy →
      PoolStep scrape numWorkers s
        { s with busy := s.busy.erase u, idle := s.idle + 1,
                 writes := s.writes ++ [(u, scrape u)] }
  | wexit {s : PoolState} :
      s.queue = [] → 1 ≤ s.idle →
      PoolStep scrape numWorkers s
        { s with idle := s.idle - 1, done := s.done + 1 }
  | ret {s : PoolState} :
      s.done = numWorkers → s.returned = false →
      PoolStep scrape numWorkers s { s with returned := true }

/-- Reachability from the initial pool state. -/
def PoolReach (scrape : String → DetailResult) (numWorkers : Nat)
    (urls : List String) (s : PoolState) : Prop :=
  Relation.ReflTransGen (PoolStep scrape numWorkers) (initPool numWorkers urls) s

/-- The Go map built from the write trace: the last `results[url] = result`
assignment for a key wins. -/
def mapOf (writes : List (String × DetailResult)) (u : String) : Option DetailResult :=
  writes.reverse.lookup u

/-- Inductive invariant of the pool machine: (1) the multiset of URLs
pending in the channel, being processed, and already written is exactly the
input URL multiset; (2) the worker count is conserved; (3) every write holds
the scrape result for its key; (4) a worker has exited only after the
channel drained; (5) the call has returned only after every worker exited. -/
def PoolInv (scrape : String → DetailResult) (numWorkers : Nat)
    (urls : List String) (s : PoolState) : Prop :=
  ((s.queue : Multiset String) + (s.busy : Multiset String)
      + ((s.writes.map Prod.fst : List String) : Multiset String)
    = (urls : Multiset String)) ∧
  s.idle + s.busy.length + s.done = numWorkers ∧
  (∀ p ∈ s.writes, p.2 = scrape p.1) ∧
  (1 ≤ s.done → s.queue = []) ∧
  (s.returned = true → s.done = numWorkers)
/-! ## Concrete inputs used by witnesses and counterexamples -/

/-- A listing whose (normalized) URL has an error-free detail result below. -/
def listWithDetail : RawListing := ⟨"u", "", "", "", "", 0, 0, 0⟩

/-- A detail-result map holding an error-free result for key `"u"`. -/
def detailsOfU : String → Option DetailResult := fun u =>
  if u = "u" then some ⟨"u", 2, 1, 4, none⟩ else none

/-- A listing used twice to exhibit a duplicated URL in the collection output. -/
def dupListing : RawListing := ⟨"d", "", "", "", "", 0, 0, 0⟩

/-- A concrete always-succeeding per-URL scrape used to drive the pool machine. -/
def scrapeWit : String → DetailResult :=
  fun u => { URL := u, Bedrooms := 1, Bathrooms := 1, Guests := 2, Error := none }

/-- States of a concrete run of the pool machine on `["a", "b"]` with one worker. -/
def poolWitS1 : PoolState :=
  { queue := ["b"], idle := 0, busy := ["a"], done := 0, writes := [], returned := false }

def poolWitS2 : PoolState :=
  { queue := ["b"], idle := 1, busy := [], done := 0,
    writes := [("a", scrapeWit "a")], returned := false }

def poolWitS3 : PoolState :=
  { queue := [], idle := 0, busy := ["b"], done := 0,
    writes := [("a", scrapeWit "a")], returned := false }

def poolWitS4 : PoolState :=
  { queue := [], idle := 1, busy := [], done := 0,
    writes := [("a", scrapeWit "a"), ("b", scrapeWit "b")], returned := false }

def poolWitS5 : PoolState :=
  { queue := [], idle := 0, busy := [], done := 1,
    writes := [("a", scrapeWit "a"), ("b", scrapeWit "b")], returned := false }

/-- Final (returned) state of the concrete two-URL pool run. -/
def poolWitFinal : PoolState :=
  { queue := [], idle := 0, busy := [], done := 1,
    writes := [("a", scrapeWit "a"), ("b", scrapeWit "b")], returned := true }

/-- States of a concrete run of the pool machine on `["c"]` with one worker. -/
def poolJoinS1 : PoolState :=
  { queue := [], idle := 0, busy := ["c"], done := 0, writes := [], returned := false }

def poolJoinS2 : PoolState :=
  { queue := [], idle := 1, busy := [], done := 0,
    writes := [("c", scrapeWit "c")], returned := false }

def poolJoinS3 : PoolState :=
  { queue := [], idle := 0, busy := [], done := 1,
    writes := [("c", scrapeWit "c")], returned := false }

/-- Final (returned) state of the concrete one-URL pool run. -/
def poolJoinFinal : PoolState :=
  { queue := [], idle := 0, busy := [], done := 1,
    writes := [("c", scrapeWit "c")], returned := true }

/-! ## Lemmas about the merge loop -/

lemma get_append_cons (pre rest : List RawListing) (l : RawListing) :
    (pre ++ l :: rest)[pre.length]? = some l := by
  induction pre with
  | nil => simp
  | cons c pre ih => simpa using ih

lemma set_append_cons (pre rest : List RawListing) (l v : RawListing) :
    (pre ++ l :: rest).set pre.length v = pre ++ v :: rest := by
  induction pre with
  | nil => rfl
  | cons c pre ih => simp [ih]

lemma mergeBody_at (f : String → String) (details : String → Option DetailResult)
    (pre rest : List RawListing) (l : RawListing) :
    mergeBody f details (pre ++ l :: rest) pre.length = pre ++ mergeOne f details l :: rest := by
  unfold mergeBody mergeOne
  rw [get_append_cons]
  dsimp only
  cases details (f l.URL) with
  | none => rfl
  | some detail =>
    dsimp only
    by_cases h : detail.Error = none
    · rw [if_pos h, if_pos h, set_append_cons]
    · rw [if_neg h, if_neg h]

lemma mergeDetails_go (f : String → String) (details : String → Option DetailResult) :
    ∀ (post pre : List RawListing),
      (List.range' pre.length post.length).foldl (mergeBody f details) (pre ++ post)
        = pre ++ post.map (mergeOne f details) := by
  intro post
  induction post with
  | nil => intro pre; simp
  | cons l rest ih =>
    intro pre
    rw [List.length_cons, List.range'_succ, List.foldl_cons, mergeBody_at]
    have h2 := ih (pre ++ [mergeOne f details l])
    simpa using h2

/-- The in-place merge loop acts as an elementwise map over the listings. -/
lemma mergeDetails_eq_map (f : String → String) (details : String → Option DetailResult)
    (listings : List RawListing) :
    mergeDetails f details listings = listings.map (mergeOne f details) := by
  have h := mergeDetails_go f details listings []
  simpa [mergeDetails, List.range_eq_range'] using h

lemma mergeOne_idem (f : String → String) (details : String → Option DetailResult)
    (l : RawListing) :
    mergeOne f details (mergeOne f details l) = mergeOne f details l := by
  unfold mergeOne
  cases hd : details (f l.URL) with
  | none => simp [hd]
  | some detail =>
    by_cases h : detail.Error = none
    · simp [hd, h]
    · simp [hd, h]

lemma buildDetailURLs_go (f : String → String) :
    ∀ (ls : List RawListing) (acc : List String),
      ls.foldl (fun urls listing =>
        if listing.URL ≠ "" then urls ++ [f listing.URL] else urls) acc
        = acc ++ (ls.filter (fun l => l.URL != "")).map (fun l => f l.URL) := by
  intro ls
  induction ls with
  | nil => intro acc; simp
  | cons l rest ih =>
    intro acc
    rw [List.foldl_cons]
    by_cases h : l.URL = ""
    · rw [if_neg (not_not_intro h), ih acc]
      simp [List.filter_cons, h]
    · rw [if_pos h, ih (acc ++ [f l.URL])]
      simp [List.filter_cons, h]

lemma buildDetailURLs_eq (f : String → String) (listings : List RawListing) :
    buildDetailURLs f listings
      = (listings.filter (fun l => l.URL != "")).map (fun l => f l.URL) := by
  have h := buildDetailURLs_go f listings []
  simpa [buildDetailURLs] using h



/-! ## Lemmas about the normalization helpers -/

lemma parseDecimal_eq_frac (s : String) (w fr : List Char)
    (hcond : s.toList.any Char.isDigit ∧ (∀ c ∈ s.toList, c.isDigit ∨ c = '.') ∧
      s.toList.count '.' ≤ 1)
    (hparts : intFracParts s.toList = (w, some fr)) :
    parseDecimal s = some ((digitsToNat w : ℚ) + (digitsToNat fr : ℚ) / ((10 : ℚ) ^ fr.length)) := by
  unfold parseDecimal
  rw [if_pos hcond, hparts]

lemma normalizePrice_eval (raw : String) (m : List Char) (q : ℚ)
    (h1 : findFirst priceMatchAt raw.toList = some m)
    (h2 : parseDecimal (String.mk (m.filter (fun c => c != ','))) = some q) :
    NormalizePrice raw = q := by
  unfold NormalizePrice
  rw [h1]
  dsimp only
  rw [h2]

lemma normalizeRating_eval (raw : String) (m : List Char) (q : ℚ)
    (h1 : findFirst ratingMatchAt raw.toList = some m)
    (h2 : parseDecimal (String.mk m) = some q) :
    NormalizeRating raw = if q > 5 then 5 else q := by
  unfold NormalizeRating
  rw [h1]
  dsimp only
  rw [h2]

/-! ## Lemmas about the retry loop -/

lemma effMaxRetries_pos (cfgMaxRetries : Int) : 1 ≤ effMaxRetries cfgMaxRetries := by
  unfold effMaxRetries
  split
  · omega
  · next h => omega

lemma retryGo_all_fail (outs : Nat → PageOutcome) (url : String) (m : Nat) (d : Int) :
    ∀ (r' a : Nat) (e0 : Option String),
      (∀ i, a ≤ i → i ≤ a + r' → pageFails (outs i) = true) →
      retryGo outs url m d a (r' + 1) e0 =
        { result := failResult url m ((ScrapeDetailPage url (outs (a + r'))).2.getD ""),
          attempts := r' + 1, delays := List.replicate r' d } := by
  intro r'
  induction r' with
  | zero =>
    intro a e0 hfail
    have hf : pageFails (outs a) = true := hfail a (le_refl a) (by omega)
    cases ho : outs a with
    | ok b q g => rw [ho] at hf; simp [pageFails] at hf
    | runFail e => simp [retryGo, ho, ScrapeDetailPage]
    | parseFail e => simp [retryGo, ho, ScrapeDetailPage]
  | succ r ih =>
    intro a e0 hfail
    have hf : pageFails (outs a) = true := hfail a (le_refl a) (by omega)
    have hrec := fun e1 => ih (a + 1) e1 (by
      intro i h1 h2
      exact hfail i (by omega) (by omega))
    cases ho : outs a with
    | ok b q g => rw [ho] at hf; simp [pageFails] at hf
    | runFail e =>
      simp only [retryGo, ho, ScrapeDetailPage]
      rw [hrec (some ("failed to scrape detail page: " ++ e))]
      have harith : a + 1 + r = a + (r + 1) := by omega
      simp [harith, ScrapeDetailPage, List.replicate]
    | parseFail e =>
      simp only [retryGo, ho, ScrapeDetailPage]
      rw [hrec (some ("failed to parse details JSON: " ++ e))]
      have harith : a + 1 + r = a + (r + 1) := by omega
      simp [harith, ScrapeDetailPage, List.replicate]

lemma retryGo_success (outs : Nat → PageOutcome) (url : String) (m : Nat) (d : Int) :
    ∀ (r' a j : Nat) (e0 : Option String), a ≤ j → j ≤ a + r' →
      pageFails (outs j) = false →
      (∀ i, a ≤ i → i < j → pageFails (outs i) = true) →
      retryGo outs url m d a (r' + 1) e0 =
        { result := (ScrapeDetailPage url (outs j)).1,
          attempts := j - a + 1, delays := List.replicate (j - a) d } := by
  intro r'
  induction r' with
  | zero =>
    intro a j e0 haj hja hok _hfail
    have hj : j = a := by omega
    subst hj
    cases ho : outs j with
    | ok b q g => simp [retryGo, ho, ScrapeDetailPage]
    | runFail e => rw [ho] at hok; simp [pageFails] at hok
    | parseFail e => rw [ho] at hok; simp [pageFails] at hok
  | succ r ih =>
    intro a j e0 haj hja hok hfail
    by_cases hje : j = a
    · subst hje
      cases ho : outs j with
      | ok b q g => simp [retryGo, ho, ScrapeDetailPage]
      | runFail e => rw [ho] at hok; simp [pageFails] at hok
      | parseFail e => rw [ho] at hok; simp [pageFails] at hok
    · have hlt : a < j := by omega
      have hfa : pageFails (outs a) = true := hfail a (le_refl a) hlt
      have hrec := fun e1 => ih (a + 1) j e1 (by omega) (by omega) hok (by
        intro i h1 h2
        exact hfail i (by omega) h2)
      cases ho : outs a with
      | ok b q g => rw [ho] at hfa; simp [pageFails] at hfa
      | runFail e =>
        simp only [retryGo, ho, ScrapeDetailPage]
        rw [hrec (some ("failed to scrape detail page: " ++ e))]
        have h1 : j - (a + 1) + 1 + 1 = j - a + 1 := by omega
        have h2 : j - a = (j - (a + 1)) + 1 := by omega
        simp [h1, h2, ScrapeDetailPage, List.replicate]
      | parseFail e =>
        simp only [retryGo, ho, ScrapeDetailPage]
        rw [hrec (some ("failed to parse details JSON: " ++ e))]
        have h1 : j - (a + 1) + 1 + 1 = j - a + 1 := by omega
        have h2 : j - a = (j - (a + 1)) + 1 := by omega
        simp [h1, h2, ScrapeDetailPage, List.replicate]

lemma retryGo_url (outs : Nat → PageOutcome) (url : String) (m : Nat) (d : Int) :
    ∀ (r a : Nat) (e0 : Option String),
      (retryGo outs url m d a r e0).result.URL = url := by
  intro r
  induction r using Nat.strong_induction_on with
  | _ r ih =>
    intro a e0
    match r with
    | 0 => simp [retryGo, failResult]
    | 1 =>
      cases ho : outs a with
      | ok b q g => simp [retryGo, ho, ScrapeDetailPage]
      | runFail e => simp [retryGo, ho, ScrapeDetailPage, failResult]
      | parseFail e => simp [retryGo, ho, ScrapeDetailPage, failResult]
    | n + 2 =>
      cases ho : outs a with
      | ok b q g => simp [retryGo, ho, ScrapeDetailPage]
      | runFail e =>
        simp only [retryGo, ho, ScrapeDetailPage]
        exact ih (n + 1) (by omega) (a + 1) (some ("failed to scrape detail page: " ++ e))
      | parseFail e =>
        simp only [retryGo, ho, ScrapeDetailPage]
        exact ih (n + 1) (by omega) (a + 1) (some ("failed to parse details JSON: " ++ e))

/-! ## Lemmas about the collection stage -/

lemma collectStage_go (fetch : Location → Except String (List RawListing)) :
    ∀ (locs : List Location) (acc : List RawListing),
      locs.foldl (collectBody fetch) acc
        = acc ++ (locs.filterMap (fun loc =>
            match fetch loc with
            | .ok rawListings => if rawListings.isEmpty then none else some rawListings
            | .error _ => none)).flatten := by
  intro locs
  induction locs with
  | nil => intro acc; simp
  | cons loc rest ih =>
    intro acc
    rw [List.foldl_cons, List.filterMap_cons]
    cases hf : fetch loc with
    | error e =>
      rw [show collectBody fetch acc loc = acc from by unfold collectBody; rw [hf]]
      simp [ih acc]
    | ok rawListings =>
      by_cases he : rawListings.isEmpty
      · rw [show collectBody fetch acc loc = acc from by unfold collectBody; rw [hf]; simp [he]]
        simp [he, ih acc]
      · rw [show collectBody fetch acc loc = acc ++ rawListings from by
          unfold collectBody; rw [hf]; simp [he]]
        simp [he, ih (acc ++ rawListings)]


/-! ## Lemmas about the pool machine -/

lemma ms_shuffle_take (u : String) (q b w : Multiset String) :
    q + (u ::ₘ b) + w = (u ::ₘ q) + b + w := by
  rw [← Multiset.singleton_add, ← Multiset.singleton_add]
  abel

lemma ms_shuffle_finish (u : String) (q e w : Multiset String) :
    q + e + (w + {u}) = q + (u ::ₘ e) + w := by
  rw [← Multiset.singleton_add]
  abel

lemma poolInv_init (scrape : String → DetailResult) (numWorkers : Nat) (urls : List String) :
    PoolInv scrape numWorkers urls (initPool numWorkers urls) := by
  refine ⟨?_, ?_, ?_, ?_, ?_⟩ <;> simp [initPool, PoolInv]

lemma poolInv_step (scrape : String → DetailResult) (numWorkers : Nat) (urls : List String)
    (s s' : PoolState) (hstep : PoolStep scrape numWorkers s s')
    (hinv : PoolInv scrape numWorkers urls s) : PoolInv scrape numWorkers urls s' := by
  obtain ⟨hkeys, hcount, hwrites, hdone, hret⟩ := hinv
  cases hstep with
  | take u q hq hidle =>
    refine ⟨?_, ?_, hwrites, ?_, ?_⟩
    · show (q : Multiset String) + ((u :: s.busy : List String) : Multiset String)
        + ((s.writes.map Prod.fst : List String) : Multiset String) = (urls : Multiset String)
      rw [← Multiset.cons_coe, ms_shuffle_take, Multiset.cons_coe]
      rw [show ((u :: q : List String) : Multiset String)
        = ((s.queue : List String) : Multiset String) from by rw [hq]]
      exact hkeys
    · show s.idle - 1 + (u :: s.busy).length + s.done = numWorkers
      simp only [List.length_cons]
      omega
    · intro h
      have h2 := hdone h
      rw [hq] at h2
      simp at h2
    · intro h
      exact hret h
  | finish u hu =>
    refine ⟨?_, ?_, ?_, hdone, hret⟩
    · show ((s.queue : List String) : Multiset String)
        + ((s.busy.erase u : List String) : Multiset String)
        + (((s.writes ++ [(u, scrape u)]).map Prod.fst : List String) : Multiset String)
        = (urls : Multiset String)
      rw [List.map_append]
      rw [show (((s.writes.map Prod.fst ++ [(u, scrape u)].map Prod.fst : List String)) : Multiset String)
        = ((s.writes.map Prod.fst : List String) : Multiset String) + {u} from by
          rw [← Multiset.coe_add]
          rfl]
      rw [← Multiset.coe_erase, ms_shuffle_finish, Multiset.cons_erase (by
        exact_mod_cast hu)]
      exact hkeys
    · show s.idle + 1 + (s.busy.erase u).length + s.done = numWorkers
      rw [List.length_erase_of_mem hu]
      have hpos : 0 < s.busy.length := List.length_pos.mpr (List.ne_nil_of_mem hu)
      omega
    · intro p hp
      rcases List.mem_append.mp hp with h1 | h2
      · exact hwrites p h1
      · simp at h2
        subst h2
        rfl
  | wexit hq hidle =>
    refine ⟨hkeys, ?_, hwrites, ?_, ?_⟩
    · show s.idle - 1 + s.busy.length + (s.done + 1) = numWorkers
      omega
    · intro _
      exact hq
    · intro h
      have hdP := hret h
      omega
  | ret hdP hnotret =>
    exact ⟨hkeys, hcount, hwrites, hdone, fun _ => hdP⟩

lemma poolInv_reach (scrape : String → DetailResult) (numWorkers : Nat) (urls : List String)
    (s : PoolState) (h : PoolReach scrape numWorkers urls s) :
    PoolInv scrape numWorkers urls s := by
  induction h with
  | refl => exact poolInv_init scrape numWorkers urls
  | tail hsteps hstep ih => exact poolInv_step scrape numWorkers urls _ _ hstep ih

lemma lookup_of_all_scrape (scrape : String → DetailResult) :
    ∀ (l : List (String × DetailResult)), (∀ p ∈ l, p.2 = scrape p.1) →
      ∀ u, u ∈ l.map Prod.fst → l.lookup u = some (scrape u) := by
  intro l
  induction l with
  | nil =>
    intro _ u hu
    simp at hu
  | cons p rest ih =>
    intro hall u hu
    by_cases he : u = p.1
    · have hp2 : p.2 = scrape p.1 := hall p (by simp)
      simp [List.lookup, he, hp2]
    · have hbe : (u == p.1) = false := beq_false_of_ne he
      have hu2 : u ∈ rest.map Prod.fst := by
        rcases List.mem_map.mp hu with ⟨x, hx, hxu⟩
        rcases List.mem_cons.mp hx with h1 | h2
        · exact absurd (by rw [← hxu, h1]) he
        · exact List.mem_map.mpr ⟨x, h2, hxu⟩
      simp [List.lookup, hbe]
      exact ih (fun p2 hp2 => hall p2 (by simp [hp2])) u hu2

lemma mapOf_of_all_scrape (scrape : String → DetailResult)
    (writes : List (String × DetailResult)) (hall : ∀ p ∈ writes, p.2 = scrape p.1)
    (u : String) (hu : u ∈ writes.map Prod.fst) :
    mapOf writes u = some (scrape u) := by
  unfold mapOf
  refine lookup_of_all_scrape scrape writes.reverse ?_ u ?_
  · intro p hp
    exact hall p (List.mem_reverse.mp hp)
  · rw [List.map_reverse]
    exact List.mem_reverse.mpr hu

lemma poolWitFinal_reach : PoolReach scrapeWit 1 ["a", "b"] poolWitFinal := by
  have h1 : PoolStep scrapeWit 1 (initPool 1 ["a", "b"]) poolWitS1 :=
    PoolStep.take "a" ["b"] rfl (by decide)
  have h2 : PoolStep scrapeWit 1 poolWitS1 poolWitS2 :=
    PoolStep.finish "a" (by decide)
  have h3 : PoolStep scrapeWit 1 poolWitS2 poolWitS3 :=
    PoolStep.take "b" [] rfl (by decide)
  have h4 : PoolStep scrapeWit 1 poolWitS3 poolWitS4 :=
    PoolStep.finish "b" (by decide)
  have h5 : PoolStep scrapeWit 1 poolWitS4 poolWitS5 :=
    PoolStep.wexit rfl (by decide)
  have h6 : PoolStep scrapeWit 1 poolWitS5 poolWitFinal :=
    PoolStep.ret rfl rfl
  exact .head h1 (.head h2 (.head h3 (.head h4 (.head h5 (.head h6 .refl)))))

lemma poolJoinFinal_reach : PoolReach scrapeWit 1 ["c"] poolJoinFinal := by
  have h1 : PoolStep scrapeWit 1 (initPool 1 ["c"]) poolJoinS1 :=
    PoolStep.take "c" [] rfl (by decide)
  have h2 : PoolStep scrapeWit 1 poolJoinS1 poolJoinS2 :=
    PoolStep.finish "c" (by decide)
  have h3 : PoolStep scrapeWit 1 poolJoinS2 poolJoinS3 :=
    PoolStep.wexit rfl (by decide)
  have h4 : PoolStep scrapeWit 1 poolJoinS3 poolJoinFinal :=
    PoolStep.ret rfl rfl
  exact .head h1 (.head h2 (.head h3 (.head h4 .refl)))


/-! ## Claim theorems -/

/-- C1: for a call of the detail worker pool on `N` distinct URLs with pool
size `P ≤ N` (`P ≥ 1`, as the defaulting guarantees), in any returned state
the result map has exactly `N` entries: the written keys are a permutation
of the URL set, each canonical key was written exactly once (so no key's
result was ever overwritten), and every key maps to its scrape result. -/
theorem pool_result_one_entry_per_key (scrape : String → DetailResult) (numWorkers : Nat)
    (urls : List String) (s : PoolState)
    (hWork : 1 ≤ numWorkers) (_hWN : numWorkers ≤ urls.length) (hnd : urls.Nodup)
    (hreach : PoolReach scrape numWorkers urls s) (hret : s.returned = true) :
    s.writes.length = urls.length ∧
    (s.writes.map Prod.fst).Perm urls ∧
    (∀ u ∈ urls, (s.writes.map Prod.fst).count u = 1) ∧
    (∀ u ∈ urls, mapOf s.writes u = some (scrape u)) := by
  obtain ⟨hkeys, hcount, hwrites, hdone, hretinv⟩ := poolInv_reach scrape numWorkers urls s hreach
  have hdP : s.done = numWorkers := hretinv hret
  have hq : s.queue = [] := hdone (by omega)
  have hblen : s.busy.length = 0 := by omega
  have hbusy : s.busy = [] := List.length_eq_zero.mp hblen
  have hperm : (s.writes.map Prod.fst).Perm urls := by
    rw [hq, hbusy] at hkeys
    simp only [Multiset.coe_nil, zero_add] at hkeys
    exact Multiset.coe_eq_coe.mp hkeys
  refine ⟨?_, hperm, ?_, ?_⟩
  · have hl := hperm.length_eq
    simpa using hl
  · intro u hu
    rw [hperm.count_eq]
    exact List.count_eq_one_of_mem hnd hu
  · intro u hu
    exact mapOf_of_all_scrape scrape s.writes hwrites u (hperm.mem_iff.mpr hu)

/-- C1 witness: a concrete complete run of the pool on `["a", "b"]` with one
worker reaches a returned state with two entries, and key `"a"` holds its
scrape result. -/
theorem pool_result_one_entry_per_key_witness :
    poolWitFinal.writes.length = 2 ∧ mapOf poolWitFinal.writes "a" = some (scrapeWit "a") := by
  have h := pool_result_one_entry_per_key scrapeWit 1 ["a", "b"] poolWitFinal
    (by decide) (by decide) (by decide) poolWitFinal_reach rfl
  exact ⟨h.1, h.2.2.2 "a" (by decide)⟩

/-- C2: with effective `maxRetries = k`, a task whose every attempt fails
makes exactly `k` `ScrapeDetailPage` attempts, sleeps the fixed
`retryDelayMs` delay exactly `k - 1` times (between consecutive attempts
only, never after the final failure), and returns a result wrapping the last
error; a task that first succeeds on attempt `j ≤ k` makes exactly `j`
attempts, sleeps `j - 1` delays, and returns the successful page result. -/
theorem retry_attempt_semantics (outs : Nat → PageOutcome) (url : String)
    (cfgMaxRetries retryDelayMs : Int) :
    ((∀ i, 1 ≤ i → i ≤ effMaxRetries cfgMaxRetries → pageFails (outs i) = true) →
      scrapeDetailWithRetry outs url cfgMaxRetries retryDelayMs =
        { result := failResult url (effMaxRetries cfgMaxRetries)
            ((ScrapeDetailPage url (outs (effMaxRetries cfgMaxRetries))).2.getD ""),
          attempts := effMaxRetries cfgMaxRetries,
          delays := List.replicate (effMaxRetries cfgMaxRetries - 1) retryDelayMs }) ∧
    (∀ j, 1 ≤ j → j ≤ effMaxRetries cfgMaxRetries → pageFails (outs j) = false →
      (∀ i, 1 ≤ i → i < j → pageFails (outs i) = true) →
      scrapeDetailWithRetry outs url cfgMaxRetries retryDelayMs =
        { result := (ScrapeDetailPage url (outs j)).1,
          attempts := j, delays := List.replicate (j - 1) retryDelayMs }) := by
  obtain ⟨k', hk⟩ : ∃ k', effMaxRetries cfgMaxRetries = k' + 1 :=
    ⟨effMaxRetries cfgMaxRetries - 1, by have h := effMaxRetries_pos cfgMaxRetries; omega⟩
  constructor
  · intro hfail
    unfold scrapeDetailWithRetry
    rw [hk]
    rw [retryGo_all_fail outs url (k' + 1) retryDelayMs k' 1 none (by
      intro i h1 h2
      exact hfail i h1 (by omega))]
    have h1k : 1 + k' = k' + 1 := by omega
    rw [h1k]
    norm_num
  · intro j hj1 hjk hok hfail
    unfold scrapeDetailWithRetry
    rw [hk]
    rw [retryGo_success outs url (k' + 1) retryDelayMs k' 1 j none hj1 (by omega) hok (by
      intro i h1 h2
      exact hfail i h1 h2)]
    have h1 : j - 1 + 1 = j := by omega
    rw [h1]

/-- C2 witness: with `maxRetries = 2` and every attempt failing, the task
makes 2 attempts, sleeps once, and wraps the last error. -/
theorem retry_attempt_semantics_witness :
    scrapeDetailWithRetry (fun _ => .runFail "boom") "u" 2 7 =
      { result := failResult "u" 2 "failed to scrape detail page: boom",
        attempts := 2, delays := [7] } := by
  have h := (retry_attempt_semantics (fun _ => .runFail "boom") "u" 2 7).1 (by
    intro i h1 h2
    rfl)
  simpa [effMaxRetries, ScrapeDetailPage] using h

/-- C3: after the merge loop, the listing at each position equals the
original with its bedrooms/bathrooms/guests overwritten by the detail
result's values exactly when a result exists under the listing's canonical
key with no error; when the result is absent or carries an error the
listing is returned unchanged, keeping its collection-stage values. -/
theorem merge_uses_detail_only_without_error (f : String → String)
    (details : String → Option DetailResult) (listings : List RawListing) (i : Nat) :
    (mergeDetails f details listings)[i]? = listings[i]?.map (fun l =>
      match details (f l.URL) with
      | some detail =>
        if detail.Error = none then
          { l with Bedrooms := detail.Bedrooms, Bathrooms := detail.Bathrooms,
                   Guests := detail.Guests }
        else l
      | none => l) := by
  rw [mergeDetails_eq_map, List.getElem?_map]
  rfl

/-- C4 counterexample: with two listings sharing URL `"d"`, the canonical
key `"d"` appears twice in the Stage-3 URL list, refuting "each canonical
key appears at most once in the detail task queue". -/
theorem detail_urls_duplicate_counterexample :
    ¬ ((buildDetailURLs (fun u => u) [dupListing, dupListing]).count "d" ≤ 1) := by decide

/-- C4 amended: the Stage-3 URL list is not deduplicated — a canonical key
occurs in it once per accumulated listing with that (non-empty) URL, so
duplicated collection URLs are fetched redundantly (for any normalization
function). -/
theorem detail_urls_multiplicity (f : String → String) (listings : List RawListing)
    (u : String) :
    (buildDetailURLs f listings).count u
      = (listings.filter (fun l => (l.URL != "") && (f l.URL == u))).length := by
  rw [buildDetailURLs_eq]
  induction listings with
  | nil => rfl
  | cons l rest ih =>
    by_cases hp : l.URL != ""
    · by_cases hg : f l.URL == u
      · simp [List.filter_cons, hp, hg, List.count_cons, ih]
      · simp [List.filter_cons, hp, hg, List.count_cons, ih]
    · simp [List.filter_cons, hp, ih]

/-- C5 counterexample: the merge loop updates the listing slice in place, so
the `RawListing` sequence is not left unchanged — with an error-free detail
result under the listing's key, the sequence after merging differs from the
input, refuting "the RawListing sequence [is] unchanged by merging". -/
theorem merge_mutates_listings_counterexample :
    mergeDetails (fun u => u) detailsOfU [listWithDetail] ≠ [listWithDetail] := by decide

/-- C5 amended: the merge step never changes the detail-result map, and it
is idempotent — running the merge loop a second time on its own output with
the same details map changes nothing; the listing sequence itself, however,
is the in-place-updated output rather than an untouched input. -/
theorem merge_idempotent_details_preserved (f : String → String)
    (details : String → Option DetailResult) (listings : List RawListing) :
    mergeDetails f details (mergeDetails f details listings) = mergeDetails f details listings ∧
    (mergeStep f (listings, details)).2 = details := by
  refine ⟨?_, rfl⟩
  rw [mergeDetails_eq_map, mergeDetails_eq_map, List.map_map]
  exact List.map_congr_left (fun l _ => mergeOne_idem f details l)

/-- C6: a run whose discovery yields zero locations ends as `noLocations`
without consulting the collection oracle; and the accumulated listing
sequence is exactly the concatenation of the results of the successful,
non-empty locations — failed or empty locations are skipped and the loop
continues. -/
theorem orchestrator_stage_policy (f : String → String)
    (fetch : Location → Except String (List RawListing))
    (pool : List String → (String → Option DetailResult))
    (locations : List Location) :
    runScraping f (.ok []) fetch pool = .noLocations ∧
    collectStage fetch locations
      = (locations.filterMap (fun loc =>
          match fetch loc with
          | .ok rawListings => if rawListings.isEmpty then none else some rawListings
          | .error _ => none)).flatten := by
  constructor
  · rfl
  · have h := collectStage_go fetch locations []
    simpa [collectStage] using h

/-- C7: in any returned state of `ScrapeDetailsWithWorkers` every worker has
exited (all `numWorkers` are done, none idle or busy), the queue is drained,
the result map has an entry for every input URL, and no further step of the
pool machine is possible — the caller observes a complete, stable map with
no concurrent writers remaining. -/
theorem pool_join_barrier (scrape : String → DetailResult) (numWorkers : Nat)
    (urls : List String) (s : PoolState)
    (hWork : 1 ≤ numWorkers)
    (hreach : PoolReach scrape numWorkers urls s) (hret : s.returned = true) :
    s.done = numWorkers ∧ s.idle = 0 ∧ s.busy = [] ∧ s.queue = [] ∧
    (∀ u ∈ urls, (mapOf s.writes u).isSome) ∧
    (∀ s', ¬ PoolStep scrape numWorkers s s') := by
  obtain ⟨hkeys, hcount, hwrites, hdone, hretinv⟩ := poolInv_reach scrape numWorkers urls s hreach
  have hdP : s.done = numWorkers := hretinv hret
  have hq : s.queue = [] := hdone (by omega)
  have hblen : s.busy.length = 0 := by omega
  have hbusy : s.busy = [] := List.length_eq_zero.mp hblen
  have hidle : s.idle = 0 := by omega
  have hperm : (s.writes.map Prod.fst).Perm urls := by
    rw [hq, hbusy] at hkeys
    simp only [Multiset.coe_nil, zero_add] at hkeys
    exact Multiset.coe_eq_coe.mp hkeys
  refine ⟨hdP, hidle, hbusy, hq, ?_, ?_⟩
  · intro u hu
    rw [mapOf_of_all_scrape scrape s.writes hwrites u (hperm.mem_iff.mpr hu)]
    rfl
  · intro s' hstep
    cases hstep with
    | take u q hq2 hidle2 => omega
    | finish u hu2 =>
      rw [hbusy] at hu2
      simp at hu2
    | wexit hq2 hidle2 => omega
    | ret hdP2 hnotret =>
      rw [hret] at hnotret
      cases hnotret

/-- C7 witness: a concrete complete one-worker run on `["c"]` reaches a
returned state where the worker has exited, nothing is busy, and the map
holds key `"c"`. -/
theorem pool_join_barrier_witness :
    poolJoinFinal.done = 1 ∧ poolJoinFinal.busy = [] ∧
    (mapOf poolJoinFinal.writes "c").isSome := by
  have h := pool_join_barrier scrapeWit 1 ["c"] poolJoinFinal (by decide)
    poolJoinFinal_reach rfl
  exact ⟨h.1, h.2.2.1, h.2.2.2.2.1 "c" (by decide)⟩

/-- C8: a fractional bathroom count (for example `1.5`) is truncated toward
zero to an integer when stored into the `DetailResult`, discarding the
fractional part (`goTrunc q ≤ q < goTrunc q + 1` for the non-negative
values extraction produces), while bedrooms and guests are stored as the
extracted integers unchanged. -/
theorem detail_truncates_bathrooms (url : String) (b g : Int) :
    ((ScrapeDetailPage url (.ok b (3 / 2 : ℚ) g)).1.Bathrooms = 1 ∧
     (ScrapeDetailPage url (.ok b (3 / 2 : ℚ) g)).1.Bedrooms = b ∧
     (ScrapeDetailPage url (.ok b (3 / 2 : ℚ) g)).1.Guests = g) ∧
    (∀ q : ℚ, 0 ≤ q →
      (ScrapeDetailPage url (.ok b q g)).1.Bathrooms = goTrunc q ∧
      (goTrunc q : ℚ) ≤ q ∧ q - 1 < (goTrunc q : ℚ)) := by
  constructor
  · refine ⟨?_, rfl, rfl⟩
    show goTrunc (3 / 2 : ℚ) = 1
    unfold goTrunc
    rw [if_pos (by norm_num)]
    norm_num
  · intro q hq
    refine ⟨rfl, ?_, ?_⟩
    · unfold goTrunc
      rw [if_pos hq]
      exact Int.floor_le q
    · unfold goTrunc
      rw [if_pos hq]
      linarith [Int.sub_one_lt_floor q]

/-- C8 witness: at the concrete extraction value `3/2` the stored bathroom
count is `1` and the truncation bound holds. -/
theorem detail_truncates_bathrooms_witness :
    (ScrapeDetailPage "w" (.ok 3 (3 / 2 : ℚ) 4)).1.Bathrooms = 1 ∧
    (3 / 2 : ℚ) - 1 < ((goTrunc (3 / 2 : ℚ)) : ℚ) := by
  have h := detail_truncates_bathrooms "w" 3 4
  exact ⟨h.1.1, (h.2 (3 / 2) (by norm_num)).2.2⟩

/-- C9: the normalization helpers are total (they return `0` rather than an
error on unparseable input): `NormalizePrice "$1,234.50" = 1234.50`,
`NormalizePrice` of `""` or `"abc"` is `0`,
`NormalizeRating "4.95 (120 reviews)" = 4.95`, a rating parsed above `5.0`
such as `"5.3"` is capped to exactly `5.0`, and every rating result is at
most `5`. -/
theorem normalization_examples_and_cap :
    NormalizePrice "$1,234.50" = 1234.50 ∧
    NormalizePrice "" = 0 ∧
    NormalizePrice "abc" = 0 ∧
    NormalizeRating "4.95 (120 reviews)" = 4.95 ∧
    NormalizeRating "5.3" = 5 ∧
    (∀ raw : String, NormalizeRating raw ≤ 5) := by
  refine ⟨?_, by decide, by decide, ?_, ?_, ?_⟩
  · rw [normalizePrice_eval "$1,234.50" ['1', ',', '2', '3', '4', '.', '5', '0']
      ((2469 : ℚ) / 2) (by decide)
      (by rw [parseDecimal_eq_frac _ ['1','2','3','4'] ['5','0'] (by decide) (by decide)]
          norm_num [show digitsToNat ['1','2','3','4'] = 1234 from by decide,
                    show digitsToNat ['5','0'] = 50 from by decide])]
    norm_num
  · rw [normalizeRating_eval "4.95 (120 reviews)" ['4', '.', '9', '5']
      ((99 : ℚ) / 20) (by decide)
      (by rw [parseDecimal_eq_frac _ ['4'] ['9','5'] (by decide) (by decide)]
          norm_num [show digitsToNat ['4'] = 4 from by decide,
                    show digitsToNat ['9','5'] = 95 from by decide])]
    norm_num
  · rw [normalizeRating_eval "5.3" ['5', '.', '3']
      ((53 : ℚ) / 10) (by decide)
      (by rw [parseDecimal_eq_frac _ ['5'] ['3'] (by decide) (by decide)]
          norm_num [show digitsToNat ['5'] = 5 from by decide,
                    show digitsToNat ['3'] = 3 from by decide])]
    norm_num
  · intro raw
    unfold NormalizeRating
    cases findFirst ratingMatchAt raw.toList with
    | none => norm_num
    | some m =>
      dsimp only
      rcases hp : parseDecimal (String.mk m) with _ | q
      · norm_num
      · dsimp only
        split
        · norm_num
        · next hq => linarith [not_lt.mp hq]

/-- C10: `scrapeDetailWithRetry` always returns a result whose `URL` field
equals the input URL; when every attempt fails, the returned result carries
a non-nil error and zero bedrooms, bathrooms and guests, so a failed fetch
can never contribute non-zero numeric values downstream. -/
theorem retry_result_url_and_failure_zeroes (outs : Nat → PageOutcome) (url : String)
    (cfgMaxRetries retryDelayMs : Int) :
    (scrapeDetailWithRetry outs url cfgMaxRetries retryDelayMs).result.URL = url ∧
    ((∀ i, 1 ≤ i → i ≤ effMaxRetries cfgMaxRetries → pageFails (outs i) = true) →
      (scrapeDetailWithRetry outs url cfgMaxRetries retryDelayMs).result.Error ≠ none ∧
      (scrapeDetailWithRetry outs url cfgMaxRetries retryDelayMs).result.Bedrooms = 0 ∧
      (scrapeDetailWithRetry outs url cfgMaxRetries retryDelayMs).result.Bathrooms = 0 ∧
      (scrapeDetailWithRetry outs url cfgMaxRetries retryDelayMs).result.Guests = 0) := by
  constructor
  · exact retryGo_url outs url (effMaxRetries cfgMaxRetries) retryDelayMs
      (effMaxRetries cfgMaxRetries) 1 none
  · intro hfail
    obtain ⟨k', hk⟩ : ∃ k', effMaxRetries cfgMaxRetries = k' + 1 :=
      ⟨effMaxRetries cfgMaxRetries - 1, by have h := effMaxRetries_pos cfgMaxRetries; omega⟩
    unfold scrapeDetailWithRetry
    rw [hk]
    rw [retryGo_all_fail outs url (k' + 1) retryDelayMs k' 1 none (by
      intro i h1 h2
      exact hfail i h1 (by omega))]
    simp [failResult]

/-- C10 witness: a concrete always-failing task returns the input URL, a
non-nil error, and all-zero numeric fields. -/
theorem retry_result_url_and_failure_zeroes_witness :
    (scrapeDetailWithRetry (fun _ => .parseFail "bad") "v" 1 0).result.URL = "v" ∧
    (scrapeDetailWithRetry (fun _ => .parseFail "bad") "v" 1 0).result.Error ≠ none ∧
    (scrapeDetailWithRetry (fun _ => .parseFail "bad") "v" 1 0).result.Bedrooms = 0 ∧
    (scrapeDetailWithRetry (fun _ => .parseFail "bad") "v" 1 0).result.Bathrooms = 0 ∧
    (scrapeDetailWithRetry (fun _ => .parseFail "bad") "v" 1 0).result.Guests = 0 := by
  have h := retry_result_url_and_failure_zeroes (fun _ => .parseFail "bad") "v" 1 0
  exact ⟨h.1, h.2 (by intro i h1 h2; rfl)⟩

end AirbnbScrape
